import Mathlib

/-!
Verification development for the pdfplot plotting library
(`src/lib.rs`, `src/util.rs`).

The embedding models IEEE `f64` arithmetic by exact rational arithmetic
(`ℚ`).  Where `NaN` and the infinities are semantically relevant (the
data-extent scan, the image intensity path, and the `f64 → u64`
conversion) values are drawn from the extended type `F` below, whose
`min`/`max` operations follow the Rust `f64::min`/`f64::max` semantics
(a `NaN` argument is ignored and the other operand returned).
-/

namespace Pdfplot

/-- Extended floating value: `NaN`, the two infinities, or a finite value
modelled as a rational. -/
inductive F where
  | nan : F
  | inf : F
  | ninf : F
  | fin : ℚ → F
deriving DecidableEq, Repr

/-- Rust `f64::is_finite` restricted to our extended values. -/
def F.isFinite : F → Bool
  | .fin _ => true
  | _ => false

/-- Rust `f64::min`: if one argument is NaN the other is returned;
infinities compare in the usual order. -/
def fmin : F → F → F
  | .nan, y => y
  | x, .nan => x
  | .ninf, _ => .ninf
  | _, .ninf => .ninf
  | .inf, y => y
  | x, .inf => x
  | .fin a, .fin b => .fin (min a b)

/-- Rust `f64::max`: if one argument is NaN the other is returned;
infinities compare in the usual order. -/
def fmax : F → F → F
  | .nan, y => y
  | x, .nan => x
  | .inf, _ => .inf
  | _, .inf => .inf
  | .ninf, y => y
  | x, .ninf => x
  | .fin a, .fin b => .fin (max a b)

/-- The data-extent scan of `Plot::digest_tick_settings`
(`src/lib.rs` lines 166-183) for one coordinate: running min starts at
`+∞`, running max at `-∞`. -/
def extent (vs : List F) : F × F :=
  vs.foldl (fun mm v => (fmin mm.1 v, fmax mm.2 v)) (F.inf, F.ninf)

/-- The per-axis extents of `digest_tick_settings`: the two input slices
are zipped, so trailing elements of the longer slice are ignored. -/
def digestExtents (xs ys : List F) : (F × F) × (F × F) :=
  let pairs := xs.zip ys
  (extent (pairs.map Prod.fst), extent (pairs.map Prod.snd))

/-- `range.log10().round()` from `compute_tick_interval`
(`src/lib.rs` line 37), computed exactly on rationals:
`round (log10 r) = ⌊log10 r⌋ + 1` exactly when `r ≥ 10 ^ (⌊log10 r⌋ + 1/2)`,
i.e. when `r ^ 2 ≥ 10 ^ (2⌊log10 r⌋ + 1)` (a tie `r = 10 ^ (k + 1/2)` is
irrational, hence unreachable from a rational input). -/
def roundLog10 (r : ℚ) : ℤ :=
  let f := Int.log 10 r
  if (10 : ℚ) ^ (2 * f + 1) ≤ r ^ 2 then f + 1 else f

/-- Index of the first minimal element of a list of keys, following the
Rust `Iterator::min_by_key` contract (`src/lib.rs` lines 53-58): on
ties the earliest element wins. -/
def argminFirst : List ℤ → ℕ
  | [] => 0
  | [_] => 0
  | a :: b :: rest =>
    let j := argminFirst (b :: rest)
    if a ≤ (b :: rest).getD j 0 then 0 else j + 1

/-- `compute_tick_interval` (`src/lib.rs` lines 35-60): five candidate
intervals derived from the order of magnitude of `|range|`; the one whose
rounded tick count is closest to 5 is chosen, earliest candidate first on
ties. -/
def compute_tick_interval (range : ℚ) : ℚ :=
  let r := |range|
  let order_of_magnitude := (10 : ℚ) ^ roundLog10 r
  let possible_tick_intervals :=
    [order_of_magnitude / 10, order_of_magnitude / 5, order_of_magnitude / 2,
      order_of_magnitude, order_of_magnitude * 2]
  let num_ticks := possible_tick_intervals.map (fun c => round (r / c))
  possible_tick_intervals.getD (argminFirst (num_ticks.map (fun n => |n - 5|))) 0

/-- The five candidate tick intervals of `compute_tick_interval`, in
source order (`src/lib.rs` lines 38-44). -/
def tickCandidates (range : ℚ) : List ℚ :=
  let order_of_magnitude := (10 : ℚ) ^ roundLog10 |range|
  [order_of_magnitude / 10, order_of_magnitude / 5, order_of_magnitude / 2,
    order_of_magnitude, order_of_magnitude * 2]

/-- The selection key of candidate `i`: distance from 5 of the tick count
the candidate would produce (`src/lib.rs` lines 45-56). -/
def tickKey (range : ℚ) (i : ℕ) : ℤ :=
  |round (|range| / (tickCandidates range).getD i 0) - 5|

/-- The list of selection keys, as built inside `compute_tick_interval`. -/
def tickKeys (range : ℚ) : List ℤ :=
  ((tickCandidates range).map (fun c => round (|range| / c))).map (fun n => |n - 5|)

/-- `f64::signum` for the (nonzero or positive-zero) rational values the
code applies it to: `+0.0` has signum `1.0` (`src/lib.rs` lines 230-231). -/
def rsign (x : ℚ) : ℚ := if x < 0 then -1 else 1

/-- The numeric content of one axis produced by `digest_tick_settings`. -/
structure AxisModel where
  limits : ℚ × ℚ
  tick_interval : ℚ
  num_ticks : ℕ
deriving DecidableEq, Repr

/-- The numeric per-axis computation of `digest_tick_settings`
(`src/lib.rs` lines 191-239), for one axis with pinned-or-absent tick
interval and limits and the finite data extent `(dmin, dmax)`:
a provisional interval is computed from the raw extent, the limits (when
not pinned) are snapped to multiples of it, the interval is then
recomputed from the snapped range, the tick count is the truncating
`to_u64` cast of `|range| / interval` plus one, and finally the interval
is re-signed to follow the direction of the limits. -/
def axisSettings (pinned_interval : Option ℚ) (pinned_lim : Option (ℚ × ℚ))
    (dmin dmax : ℚ) : AxisModel :=
  let t1 := pinned_interval.getD (compute_tick_interval (dmax - dmin))
  let lim := pinned_lim.getD (⌊dmin / t1⌋ * t1, ⌈dmax / t1⌉ * t1)
  let t2 := pinned_interval.getD (compute_tick_interval (lim.2 - lim.1))
  let n := (⌊|lim.2 - lim.1| / t2⌋).toNat + 1
  { limits := lim, tick_interval := t2 * rsign (lim.2 - lim.1), num_ticks := n }

/-- The label format regimes of `Axis::tick_labels`
(`src/lib.rs` lines 71-95): the literal zero, fixed-point with a given
number of fractional digits, or scientific notation with a given number
of digits after the decimal point.  The embedding records the formatting
decision; the actual decimal string rendering is the Rust standard
library's. -/
inductive LabelFormat where
  | zero : LabelFormat
  | fixedPoint : ℕ → LabelFormat
  | scientific : ℕ → LabelFormat
deriving DecidableEq, Repr

/-- The branch logic of `Axis::tick_labels` (`src/lib.rs` lines 71-95),
with the floating `log10` comparisons carried out exactly:
with `tick_precision = log10 |tick_interval|` and
`tick_max = log10 (max |limits.0| |limits.1|)`,
`tick_precision < 0` holds exactly when `|tick_interval| < 1`, and then
`ceil |tick_precision| = -⌊log10 |tick_interval|⌋ = -Int.log 10 |tick_interval|`;
`tick_max < 4` holds exactly when `max |limits.0| |limits.1| < 10 ^ 4`;
and `ceil |tick_max - tick_precision|` is `Int.clog 10` of whichever of
`tick_max / |tick_interval|` and its reciprocal is at least 1. -/
def tickLabelFormat (tick_interval : ℚ) (limits : ℚ × ℚ) (v : ℚ) : LabelFormat :=
  let tmax := max |limits.1| |limits.2|
  if v = 0 then .zero
  else if |tick_interval| < 1 then
    .fixedPoint (-Int.log 10 |tick_interval|).toNat
  else if tmax < 10 ^ 4 then .fixedPoint 2
  else
    .scientific (max ((if |tick_interval| ≤ tmax then Int.clog 10 (tmax / |tick_interval|)
      else Int.clog 10 (|tick_interval| / tmax)) - 1) 1).toNat

/-- `f64::MAX = (2 - 2 ^ (-52)) * 2 ^ 1023`, the initial value of the
running minimum in `Plot::image` (`src/lib.rs` line 428); the running
maximum starts at `std::f64::MIN = -f64::MAX`. -/
def f64Max : ℚ := 2 ^ 1024 - 2 ^ 971

/-- The finite entries of an image buffer, in order: the filter
`!i.is_nan() && !i.is_infinite()` of `src/lib.rs` lines 429-432. -/
def finiteVals (data : List F) : List ℚ :=
  data.filterMap (fun v => match v with | .fin q => some q | _ => none)

/-- The observed finite minimum and maximum of an image buffer
(`src/lib.rs` lines 427-439), starting from the sentinels
`(f64::MAX, f64::MIN)` and updating with strict comparisons. -/
def imageMinMax (data : List F) : ℚ × ℚ :=
  (finiteVals data).foldl
    (fun mm q => (if q < mm.1 then q else mm.1, if q > mm.2 then q else mm.2))
    (f64Max, -f64Max)

/-- The color-ramp index of a finite intensity
(`src/lib.rs` lines 446-447): clamp below by the observed minimum, scale
to `[0, 255]`, truncate to an unsigned integer.  When `mx = mn` the Rust
code computes `(0.0 / 0.0) * 255.0 = NaN`, and `NaN as usize` saturates
to 0; rational division by zero also yields 0, so the embedding agrees. -/
def colorIndex (mn mx q : ℚ) : ℕ := (⌊(max q mn - mn) / (mx - mn) * 255⌋).toNat

/-- One output pixel of `Plot::image` (`src/lib.rs` lines 442-452):
non-finite entries become flat white, finite entries are looked up in the
256-entry color ramp.  The ramp (`colormaps::VIRIDIS`, a source file not
under `src/`) is a parameter; only its entries at 0 and 255 matter to the
claims. -/
def renderPixel (ramp : ℕ → ℕ × ℕ × ℕ) (mn mx : ℚ) : F → ℕ × ℕ × ℕ
  | .fin q => ramp (colorIndex mn mx q)
  | _ => (255, 255, 255)

/-- The full pixel buffer produced by the intensity path of `Plot::image`
(`src/lib.rs` lines 426-452). -/
def imagePixels (ramp : ℕ → ℕ × ℕ × ℕ) (data : List F) : List (ℕ × ℕ × ℕ) :=
  let mm := imageMinMax data
  data.map (renderPixel ramp mm.1 mm.2)

/-- `u64::max_value() as f64` (`src/util.rs` line 28): the cast rounds
`2 ^ 64 - 1` to the nearest representable double, which is `2 ^ 64`. -/
def u64MaxAsF64 : ℚ := 2 ^ 64

/-- `<f64 as ToU64>::to_u64` (`src/util.rs` lines 19-35): assert the
value is at least 0 (false for NaN and `-∞`), assert it is at most
`u64::max_value() as f64 = 2 ^ 64` (false for `+∞`), then perform the
saturating truncating cast `self as u64`.  `none` models an assertion
failure (panic). -/
def to_u64 : F → Option ℕ
  | .nan => none
  | .ninf => none
  | .inf => none
  | .fin q =>
    if 0 ≤ q then
      if q ≤ u64MaxAsF64 then some (min (⌊q⌋).toNat (2 ^ 64 - 1)) else none
    else none

/-- `Marker` (`src/lib.rs` lines 25-28). -/
inductive Marker where
  | Dot : Marker
deriving DecidableEq, Repr

/-- `LineStyle` (`src/lib.rs` lines 30-33). -/
inductive LineStyle where
  | Solid : LineStyle
deriving DecidableEq, Repr

/-- The configuration fields of `Plot` (`src/lib.rs` lines 9-23),
excluding the opaque `pdf` backend handle. -/
structure PlotConfig where
  width : ℚ
  height : ℚ
  font_size : ℚ
  tick_length : ℚ
  x_tick_interval : Option ℚ
  y_tick_interval : Option ℚ
  xlim : Option (ℚ × ℚ)
  ylim : Option (ℚ × ℚ)
  xlabel : Option String
  ylabel : Option String
  marker : Option Marker
  linestyle : Option LineStyle
deriving DecidableEq

/-- The x-axis margin, computed purely from the configuration
(`src/lib.rs` line 243). -/
def xaxisMargin (c : PlotConfig) : ℚ :=
  c.font_size * 1.5 + c.font_size + c.tick_length + c.font_size

/-- Effect of `Plot::plot` (`src/lib.rs` lines 365-415) on the
configuration fields: the method reads the configuration and draws into
the backend, assigning none of the fields. -/
def plotConfigEffect (c : PlotConfig) : PlotConfig := c

/-- Effect of `Plot::image` (`src/lib.rs` lines 456-468) on the
configuration fields: the page height and width are overwritten so the
page exactly fits the square plot area plus margins; the y-axis margin
and the width of the last x tick label depend on backend text
measurement and enter as parameters. -/
def imageConfigEffect (c : PlotConfig) (y_margin last_label_width : ℚ) : PlotConfig :=
  let plot_width := c.width - y_margin - last_label_width
  let plot_height := c.height - xaxisMargin c - c.font_size
  let plot_size := min plot_width plot_height
  { c with
    height := plot_size + xaxisMargin c + c.font_size,
    width := plot_size + y_margin + c.font_size }

/-- `plot_width` of `Plot::plot` (`src/lib.rs` lines 371-372): the page
width minus the y-axis margin minus the measured width of the last x
tick label. -/
def plotWidth (width y_margin last_label_width : ℚ) : ℚ :=
  width - y_margin - last_label_width

/-- The data-to-canvas x map of `Plot::plot` (`src/lib.rs` lines
376-379). -/
def to_canvas_x (plot_width y_margin : ℚ) (xlim : ℚ × ℚ) (x : ℚ) : ℚ :=
  (x - xlim.1) * (plot_width / (xlim.2 - xlim.1)) + y_margin

/-- Whether both components of a scanned extent are finite. -/
def extentFinite (e : F × F) : Bool := e.1.isFinite && e.2.isFinite

/-- The precondition asserts of `digest_tick_settings`
(`src/lib.rs` lines 186-187): each axis needs a finite data extent or a
pinned limit. -/
def digestOk (xs ys : List F) (xlim ylim : Option (ℚ × ℚ)) : Bool :=
  (extentFinite (digestExtents xs ys).1 || xlim.isSome) &&
    (extentFinite (digestExtents xs ys).2 || ylim.isSome)

/-- The preconditions of `Plot::image`: the buffer length must equal
`width * height` (`src/lib.rs` line 424), and `digest_tick_settings` is
then invoked on empty slices (`src/lib.rs` line 454), so both limits
must be pinned. -/
def imageOk (data_len image_width image_height : ℕ)
    (xlim ylim : Option (ℚ × ℚ)) : Bool :=
  decide (image_width * image_height = data_len) && digestOk [] [] xlim ylim

end Pdfplot

namespace Pdfplot

/-! ### Properties of the first-minimum selection -/

theorem argminFirst_lt_length : ∀ (l : List ℤ), l ≠ [] → argminFirst l < l.length
  | [], h => absurd rfl h
  | [_], _ => by simp [argminFirst]
  | a :: b :: rest, _ => by
    have ih := argminFirst_lt_length (b :: rest) (by simp)
    simp only [argminFirst]
    split
    · simp
    · simpa using Nat.succ_lt_succ ih

theorem argminFirst_min : ∀ (l : List ℤ), ∀ j < l.length,
    l.getD (argminFirst l) 0 ≤ l.getD j 0
  | [], j, hj => by simp at hj
  | [a], j, hj => by
    have : j = 0 := by simpa using hj
    subst this
    simp [argminFirst]
  | a :: b :: rest, j, hj => by
    have ih := argminFirst_min (b :: rest)
    simp only [argminFirst]
    split
    · rename_i hle
      cases j with
      | zero => simp
      | succ k =>
        have hk : k < (b :: rest).length := by simpa using hj
        simp only [List.getD_cons_succ, List.getD_cons_zero]
        exact le_trans hle (ih k hk)
    · rename_i hgt
      push_neg at hgt
      cases j with
      | zero =>
        simpa [List.getD_cons_succ, List.getD_cons_zero] using le_of_lt hgt
      | succ k =>
        have hk : k < (b :: rest).length := by simpa using hj
        simpa [List.getD_cons_succ] using ih k hk

theorem argminFirst_first : ∀ (l : List ℤ), ∀ j < argminFirst l,
    l.getD (argminFirst l) 0 < l.getD j 0
  | [], j, hj => by simp [argminFirst] at hj
  | [a], j, hj => by simp [argminFirst] at hj
  | a :: b :: rest, j, hj => by
    have ih := argminFirst_first (b :: rest)
    simp only [argminFirst] at hj ⊢
    split
    · rename_i hle
      rw [if_pos hle] at hj
      simp at hj
    · rename_i hgt
      push_neg at hgt
      rw [if_neg (not_le.mpr hgt)] at hj
      cases j with
      | zero =>
        simpa [List.getD_cons_succ, List.getD_cons_zero] using hgt
      | succ k =>
        have hk : k < argminFirst (b :: rest) := by omega
        simpa [List.getD_cons_succ] using ih k hk

end Pdfplot

namespace Pdfplot

/-! ### Bridging exact rational logarithms with the real `logb` -/

theorem Int_log10_ratCast (q : ℚ) (hq : 0 < q) :
    Int.log 10 ((q : ℝ)) = Int.log 10 q := by
  have hq' : (0 : ℝ) < (q : ℝ) := by exact_mod_cast hq
  have h1 : ((10 : ℕ) : ℝ) ^ (Int.log 10 q) ≤ (q : ℝ) := by
    have h := Int.zpow_log_le_self (b := 10) (by norm_num) hq
    have h' := (Rat.cast_le (K := ℝ)).mpr h
    push_cast at h'
    exact_mod_cast h'
  have h2 : (q : ℝ) < ((10 : ℕ) : ℝ) ^ (Int.log 10 q + 1) := by
    have h := Int.lt_zpow_succ_log_self (b := 10) (by norm_num) q
    have h' := (Rat.cast_lt (K := ℝ)).mpr h
    push_cast at h'
    exact_mod_cast h'
  have ha : Int.log 10 q ≤ Int.log 10 ((q : ℝ)) :=
    (Int.zpow_le_iff_le_log (by norm_num) hq').mp h1
  have hb : Int.log 10 ((q : ℝ)) < Int.log 10 q + 1 :=
    (Int.lt_zpow_iff_log_lt (by norm_num) hq').mp h2
  omega

theorem Int_clog10_ratCast (q : ℚ) (hq : 0 < q) :
    Int.clog 10 ((q : ℝ)) = Int.clog 10 q := by
  have hq' : (0 : ℝ) < (q : ℝ) := by exact_mod_cast hq
  have h1 : (q : ℝ) ≤ ((10 : ℕ) : ℝ) ^ (Int.clog 10 q) := by
    have h := Int.self_le_zpow_clog (b := 10) (by norm_num) q
    have h' := (Rat.cast_le (K := ℝ)).mpr h
    push_cast at h'
    exact_mod_cast h'
  have h2 : ((10 : ℕ) : ℝ) ^ (Int.clog 10 q - 1) < (q : ℝ) := by
    have h := Int.zpow_pred_clog_lt_self (b := 10) (by norm_num) hq
    have h' := (Rat.cast_lt (K := ℝ)).mpr h
    push_cast at h'
    exact_mod_cast h'
  have ha : Int.clog 10 ((q : ℝ)) ≤ Int.clog 10 q :=
    (Int.le_zpow_iff_clog_le (by norm_num) hq').mp h1
  have hb : Int.clog 10 q - 1 < Int.clog 10 ((q : ℝ)) :=
    (Int.zpow_lt_iff_lt_clog (by norm_num) hq').mp h2
  omega

theorem floor_logb10 (x : ℝ) (hx : 0 ≤ x) : ⌊Real.logb 10 x⌋ = Int.log 10 x := by
  rw [show (10 : ℝ) = ((10 : ℕ) : ℝ) by norm_num]
  exact Real.floor_logb_natCast hx

theorem ceil_logb10 (x : ℝ) (hx : 0 ≤ x) : ⌈Real.logb 10 x⌉ = Int.clog 10 x := by
  rw [show (10 : ℝ) = ((10 : ℕ) : ℝ) by norm_num]
  exact Real.ceil_logb_natCast hx

theorem roundLog10_eq_round_logb (q : ℚ) (hq : 0 < q) :
    roundLog10 q = round (Real.logb 10 (q : ℝ)) := by
  have hqR : (0 : ℝ) < (q : ℝ) := by exact_mod_cast hq
  have hf : ⌊Real.logb 10 (q : ℝ)⌋ = Int.log 10 q := by
    rw [floor_logb10 _ (le_of_lt hqR), Int_log10_ratCast q hq]
  have key : ((10 : ℚ) ^ (2 * Int.log 10 q + 1) ≤ q ^ 2) ↔
      (Int.log 10 q : ℝ) + 1 / 2 ≤ Real.logb 10 (q : ℝ) := by
    constructor
    · intro h
      have hR : (10 : ℝ) ^ (2 * Int.log 10 q + 1 : ℤ) ≤ (q : ℝ) ^ 2 := by
        have h' := (Rat.cast_le (K := ℝ)).mpr h
        push_cast at h'
        exact_mod_cast h'
      have hmono := (Real.logb_le_logb (b := 10) (by norm_num)
        (x := (10 : ℝ) ^ (2 * Int.log 10 q + 1 : ℤ)) (y := (q : ℝ) ^ 2)
        (by positivity) (by positivity)).mpr hR
      rw [← Real.rpow_intCast 10 (2 * Int.log 10 q + 1),
        Real.logb_rpow (by norm_num) (by norm_num), Real.logb_pow] at hmono
      push_cast at hmono
      linarith
    · intro h
      have hle : (10 : ℝ) ^ ((Int.log 10 q : ℝ) + 1 / 2) ≤ (q : ℝ) :=
        (Real.le_logb_iff_rpow_le (by norm_num) hqR).mp h
      have hsq : ((10 : ℝ) ^ ((Int.log 10 q : ℝ) + 1 / 2)) ^ (2 : ℕ) ≤ (q : ℝ) ^ (2 : ℕ) := by
        gcongr
      rw [← Real.rpow_natCast ((10 : ℝ) ^ ((Int.log 10 q : ℝ) + 1 / 2)) 2,
        ← Real.rpow_mul (by norm_num)] at hsq
      have hexp : ((Int.log 10 q : ℝ) + 1 / 2) * (2 : ℕ) =
          ((2 * Int.log 10 q + 1 : ℤ) : ℝ) := by
        push_cast
        ring
      rw [hexp, Real.rpow_intCast] at hsq
      have h' : ((((10 : ℚ) ^ (2 * Int.log 10 q + 1) : ℚ)) : ℝ) ≤ (((q ^ 2 : ℚ)) : ℝ) := by
        push_cast
        exact_mod_cast hsq
      exact_mod_cast h'
  rw [roundLog10, round_eq]
  by_cases hc : (10 : ℚ) ^ (2 * Int.log 10 q + 1) ≤ q ^ 2
  · rw [if_pos hc]
    have hge := key.mp hc
    have hlt : Real.logb 10 (q : ℝ) < Int.log 10 q + 1 := by
      have h := Int.lt_floor_add_one (Real.logb 10 (q : ℝ))
      rw [hf] at h
      exact_mod_cast h
    symm
    rw [Int.floor_eq_iff]
    push_cast
    constructor <;> linarith
  · rw [if_neg hc]
    have hlt : Real.logb 10 (q : ℝ) < (Int.log 10 q : ℝ) + 1 / 2 := by
      by_contra h
      push_neg at h
      exact hc (key.mpr h)
    have hge : (Int.log 10 q : ℝ) ≤ Real.logb 10 (q : ℝ) := by
      have h := Int.floor_le (Real.logb 10 (q : ℝ))
      rw [hf] at h
      exact_mod_cast h
    symm
    rw [Int.floor_eq_iff]
    push_cast
    constructor <;> linarith

theorem tickKeys_length (r : ℚ) : (tickKeys r).length = 5 := by
  simp [tickKeys, tickCandidates]

theorem tickKeys_ne_nil (r : ℚ) : tickKeys r ≠ [] := by
  simp [tickKeys, tickCandidates]

theorem tickKeys_getD (r : ℚ) (j : ℕ) (hj : j < 5) :
    (tickKeys r).getD j 0 = tickKey r j := by
  interval_cases j <;> simp [tickKeys, tickKey, tickCandidates]

theorem compute_tick_interval_eq (r : ℚ) :
    compute_tick_interval r = (tickCandidates r).getD (argminFirst (tickKeys r)) 0 := rfl

/-- C1: for a nonzero range `r`, `compute_tick_interval r` returns one of
the five candidates `m/10, m/5, m/2, m, 2m` with `m = 10 ^ round (log10 |r|)`
(the list `tickCandidates r`, whose exact exponent `roundLog10 |r|` is
proved equal to the rounded real logarithm), the returned candidate
minimizes `|round (|r| / candidate) - 5|` over the five candidates, and
on ties the earliest (smallest) candidate wins. -/
theorem compute_tick_interval_minimizes (r : ℚ) (hr : r ≠ 0) :
    roundLog10 |r| = round (Real.logb 10 |(r : ℝ)|) ∧
      ∃ i, i < 5 ∧
        compute_tick_interval r = (tickCandidates r).getD i 0 ∧
        (∀ j, j < 5 → tickKey r i ≤ tickKey r j) ∧
        (∀ j, j < i → tickKey r i < tickKey r j) := by
  have habs : ((|r| : ℚ) : ℝ) = |(r : ℝ)| := by push_cast; rfl
  have hi : argminFirst (tickKeys r) < 5 :=
    tickKeys_length r ▸ argminFirst_lt_length _ (tickKeys_ne_nil r)
  refine ⟨by rw [← habs]; exact roundLog10_eq_round_logb |r| (abs_pos.mpr hr),
    argminFirst (tickKeys r), hi, compute_tick_interval_eq r, ?_, ?_⟩
  · intro j hj
    have h := argminFirst_min (tickKeys r) j (by rw [tickKeys_length]; exact hj)
    rwa [tickKeys_getD r _ hi, tickKeys_getD r j hj] at h
  · intro j hj
    have h := argminFirst_first (tickKeys r) j hj
    rwa [tickKeys_getD r _ hi, tickKeys_getD r j (lt_trans hj hi)] at h

/-- Witness for C1, at the range 7: the chosen interval is `m/5 = 2`
(4 ticks), strictly better than the earlier candidate. -/
theorem compute_tick_interval_minimizes_witness :
    (7 : ℚ) ≠ 0 ∧
      (roundLog10 |(7 : ℚ)| = round (Real.logb 10 |((7 : ℚ) : ℝ)|) ∧
        ∃ i, i < 5 ∧
          compute_tick_interval 7 = (tickCandidates 7).getD i 0 ∧
          (∀ j, j < 5 → tickKey 7 i ≤ tickKey 7 j) ∧
          (∀ j, j < i → tickKey 7 i < tickKey 7 j)) :=
  ⟨by norm_num, compute_tick_interval_minimizes 7 (by norm_num)⟩

end Pdfplot

namespace Pdfplot

/-! ### Evaluation of the log-based definitions at concrete inputs -/

theorem Int_log10_eq (r : ℚ) (k : ℤ) (h0 : 0 < r) (h1 : (10 : ℚ) ^ k ≤ r)
    (h2 : r < (10 : ℚ) ^ (k + 1)) : Int.log 10 r = k := by
  have ha : k ≤ Int.log 10 r := by
    refine (Int.zpow_le_iff_le_log (by norm_num) h0).mp ?_
    push_cast
    exact h1
  have hb : Int.log 10 r < k + 1 := by
    refine (Int.lt_zpow_iff_log_lt (by norm_num) h0).mp ?_
    push_cast
    exact h2
  omega

theorem Int_clog10_eq (r : ℚ) (k : ℤ) (h0 : 0 < r) (h1 : (10 : ℚ) ^ (k - 1) < r)
    (h2 : r ≤ (10 : ℚ) ^ k) : Int.clog 10 r = k := by
  have ha : Int.clog 10 r ≤ k := by
    refine (Int.le_zpow_iff_clog_le (by norm_num) h0).mp ?_
    push_cast
    exact h2
  have hb : k - 1 < Int.clog 10 r := by
    refine (Int.zpow_lt_iff_lt_clog (by norm_num) h0).mp ?_
    push_cast
    exact h1
  omega

theorem roundLog10_7 : roundLog10 7 = 1 := by
  have h : Int.log 10 (7 : ℚ) = 0 := Int_log10_eq 7 0 (by norm_num) (by norm_num) (by norm_num)
  simp only [roundLog10, h]
  norm_num

theorem roundLog10_4 : roundLog10 4 = 1 := by
  have h : Int.log 10 (4 : ℚ) = 0 := Int_log10_eq 4 0 (by norm_num) (by norm_num) (by norm_num)
  simp only [roundLog10, h]
  norm_num

theorem roundLog10_16 : roundLog10 16 = 1 := by
  have h : Int.log 10 (16 : ℚ) = 1 :=
    Int_log10_eq 16 1 (by norm_num) (by norm_num) (by norm_num)
  simp only [roundLog10, h]
  norm_num

theorem roundLog10_20 : roundLog10 20 = 1 := by
  have h : Int.log 10 (20 : ℚ) = 1 :=
    Int_log10_eq 20 1 (by norm_num) (by norm_num) (by norm_num)
  simp only [roundLog10, h]
  norm_num

theorem cti_7 : compute_tick_interval 7 = 2 := by
  have habs : |(7 : ℚ)| = 7 := by norm_num
  simp only [compute_tick_interval, habs, roundLog10_7]
  norm_num [round_eq]
  decide

theorem cti_4 : compute_tick_interval 4 = 1 := by
  have habs : |(4 : ℚ)| = 4 := by norm_num
  simp only [compute_tick_interval, habs, roundLog10_4]
  norm_num [round_eq]
  decide

theorem cti_16 : compute_tick_interval 16 = 5 := by
  have habs : |(16 : ℚ)| = 16 := by norm_num
  simp only [compute_tick_interval, habs, roundLog10_16]
  norm_num [round_eq]
  decide

theorem cti_20 : compute_tick_interval 20 = 5 := by
  have habs : |(20 : ℚ)| = 20 := by norm_num
  simp only [compute_tick_interval, habs, roundLog10_20]
  norm_num [round_eq]
  decide

theorem axisSettings_pinned_0_7 :
    axisSettings none (some (0, 7)) 0 7 =
      { limits := (0, 7), tick_interval := 2, num_ticks := 4 } := by
  simp only [axisSettings, Option.getD_none, Option.getD_some]
  norm_num [cti_7, rsign]
  decide

/-- C2 counterexample: with `xlim` pinned to `(0, 7)` and data extent
`(0, 7)`, the recomputed tick interval is 2, and the code sets
`num_ticks = trunc (7 / 2) + 1 = 4`, not `round (7 / 2) + 1 = 5` as the
claim states. -/
theorem axis_num_ticks_round_counterexample :
    (axisSettings none (some (0, 7)) 0 7).tick_interval = 2 ∧
      (axisSettings none (some (0, 7)) 0 7).num_ticks ≠
        (round (|(axisSettings none (some (0, 7)) 0 7).limits.2 -
            (axisSettings none (some (0, 7)) 0 7).limits.1| /
          (axisSettings none (some (0, 7)) 0 7).tick_interval)).toNat + 1 := by
  rw [axisSettings_pinned_0_7]
  norm_num [round_eq]
  decide

/-- C2 amended: for every axis produced by `digest_tick_settings` with
ascending limits and a positive resulting tick interval, `num_ticks`
equals the truncation (not rounding) of `|limits.1 - limits.0| /
tick_interval` plus one, and the last tick position
`limits.0 + (num_ticks - 1) * tick_interval` lies in the window
`(limits.1 - tick_interval, limits.1]`: the ticks never overshoot the
upper limit and stop strictly within one interval of it. -/
theorem axis_num_ticks_floor (pinned_interval : Option ℚ)
    (pinned_lim : Option (ℚ × ℚ)) (dmin dmax : ℚ)
    (h1 : (axisSettings pinned_interval pinned_lim dmin dmax).limits.1 ≤
      (axisSettings pinned_interval pinned_lim dmin dmax).limits.2)
    (h2 : 0 < (axisSettings pinned_interval pinned_lim dmin dmax).tick_interval) :
    (axisSettings pinned_interval pinned_lim dmin dmax).num_ticks =
      (⌊((axisSettings pinned_interval pinned_lim dmin dmax).limits.2 -
          (axisSettings pinned_interval pinned_lim dmin dmax).limits.1) /
        (axisSettings pinned_interval pinned_lim dmin dmax).tick_interval⌋).toNat + 1 ∧
    (axisSettings pinned_interval pinned_lim dmin dmax).limits.1 +
        (((axisSettings pinned_interval pinned_lim dmin dmax).num_ticks : ℚ) - 1) *
          (axisSettings pinned_interval pinned_lim dmin dmax).tick_interval ≤
      (axisSettings pinned_interval pinned_lim dmin dmax).limits.2 ∧
    (axisSettings pinned_interval pinned_lim dmin dmax).limits.2 -
        ((axisSettings pinned_interval pinned_lim dmin dmax).limits.1 +
          (((axisSettings pinned_interval pinned_lim dmin dmax).num_ticks : ℚ) - 1) *
            (axisSettings pinned_interval pinned_lim dmin dmax).tick_interval) <
      (axisSettings pinned_interval pinned_lim dmin dmax).tick_interval := by
  simp only [axisSettings] at h1 h2 ⊢
  set t1 := pinned_interval.getD (compute_tick_interval (dmax - dmin)) with ht1
  set L := pinned_lim.getD (⌊dmin / t1⌋ * t1, ⌈dmax / t1⌉ * t1) with hL
  set t2 := pinned_interval.getD (compute_tick_interval (L.2 - L.1)) with ht2
  have hΔ : 0 ≤ L.2 - L.1 := by linarith
  have hsgn : rsign (L.2 - L.1) = 1 := by
    simp only [rsign, if_neg (not_lt.mpr hΔ)]
  rw [hsgn, mul_one] at h2 ⊢
  have habs : |L.2 - L.1| = L.2 - L.1 := abs_of_nonneg hΔ
  rw [habs]
  have hdiv : (0 : ℚ) ≤ (L.2 - L.1) / t2 := div_nonneg hΔ (le_of_lt h2)
  have hfl : (0 : ℤ) ≤ ⌊(L.2 - L.1) / t2⌋ := Int.floor_nonneg.mpr hdiv
  have hto : (((⌊(L.2 - L.1) / t2⌋).toNat : ℕ) : ℚ) = ((⌊(L.2 - L.1) / t2⌋ : ℤ) : ℚ) := by
    exact_mod_cast Int.toNat_of_nonneg hfl
  have hcast : ((((⌊(L.2 - L.1) / t2⌋).toNat + 1 : ℕ) : ℚ) - 1) =
      ((⌊(L.2 - L.1) / t2⌋ : ℤ) : ℚ) := by
    rw [Nat.cast_add, Nat.cast_one, hto]
    ring
  refine ⟨rfl, ?_, ?_⟩
  · rw [hcast]
    have := Int.floor_le ((L.2 - L.1) / t2)
    have hmul : ((⌊(L.2 - L.1) / t2⌋ : ℤ) : ℚ) * t2 ≤ (L.2 - L.1) / t2 * t2 :=
      mul_le_mul_of_nonneg_right this (le_of_lt h2)
    rw [div_mul_cancel₀ _ (ne_of_gt h2)] at hmul
    linarith
  · rw [hcast]
    have := Int.lt_floor_add_one ((L.2 - L.1) / t2)
    have hmul : (L.2 - L.1) / t2 * t2 < (((⌊(L.2 - L.1) / t2⌋ : ℤ) : ℚ) + 1) * t2 :=
      mul_lt_mul_of_pos_right this h2
    rw [div_mul_cancel₀ _ (ne_of_gt h2)] at hmul
    linarith

/-- Witness for C2 (amended), at the axis with `xlim` pinned to `(0, 7)`:
4 ticks, last tick at 6, within one interval (2) of the limit 7. -/
theorem axis_num_ticks_floor_witness :
    (axisSettings none (some (0, 7)) 0 7).limits.1 ≤
        (axisSettings none (some (0, 7)) 0 7).limits.2 ∧
      0 < (axisSettings none (some (0, 7)) 0 7).tick_interval ∧
      (axisSettings none (some (0, 7)) 0 7).num_ticks =
        (⌊((axisSettings none (some (0, 7)) 0 7).limits.2 -
            (axisSettings none (some (0, 7)) 0 7).limits.1) /
          (axisSettings none (some (0, 7)) 0 7).tick_interval⌋).toNat + 1 :=
  ⟨by rw [axisSettings_pinned_0_7]; norm_num, by rw [axisSettings_pinned_0_7]; norm_num,
    (axis_num_ticks_floor none (some (0, 7)) 0 7
      (by rw [axisSettings_pinned_0_7]; norm_num)
      (by rw [axisSettings_pinned_0_7]; norm_num)).1⟩

end Pdfplot

namespace Pdfplot

theorem axisSettings_free_0_4 :
    axisSettings none none 0 4 =
      { limits := (0, 4), tick_interval := 1, num_ticks := 5 } := by
  simp only [axisSettings, Option.getD_none]
  norm_num [cti_4, rsign]
  decide

theorem axisSettings_free_0_16 :
    axisSettings none none 0 16 =
      { limits := (0, 20), tick_interval := 5, num_ticks := 5 } := by
  have hce : (⌈(16 : ℚ) / 5⌉ : ℤ) = 4 := by
    rw [Int.ceil_eq_iff]
    norm_num
  simp only [axisSettings, Option.getD_none]
  norm_num [cti_16, hce]
  norm_num [cti_20, rsign]
  decide

/-- C3: with no pinned limits, `digest_tick_settings` snaps the limits to
multiples of the provisional interval computed from the raw extent and
then recomputes the interval from the snapped range; with a pinned
interval the pinned value serves both passes.  Concretely, for the data
`x = [0,1,2,3,4]`, `y = [0,1,4,9,16]` the scanned extents are `(0,4)` and
`(0,16)`, the inferred x axis is exactly `(0,4)` with 5 ticks, and the
inferred y axis is a bracket of tick-interval multiples containing
`[0,16]`, namely `(0,20)` in steps of 5. -/
theorem plot_infers_limits_two_pass :
    (∀ dmin dmax : ℚ,
      (axisSettings none none dmin dmax).limits =
        (⌊dmin / compute_tick_interval (dmax - dmin)⌋ *
            compute_tick_interval (dmax - dmin),
          ⌈dmax / compute_tick_interval (dmax - dmin)⌉ *
            compute_tick_interval (dmax - dmin)) ∧
      (axisSettings none none dmin dmax).tick_interval =
        compute_tick_interval ((axisSettings none none dmin dmax).limits.2 -
            (axisSettings none none dmin dmax).limits.1) *
          rsign ((axisSettings none none dmin dmax).limits.2 -
            (axisSettings none none dmin dmax).limits.1)) ∧
    (∀ t dmin dmax : ℚ,
      (axisSettings (some t) none dmin dmax).limits =
        (⌊dmin / t⌋ * t, ⌈dmax / t⌉ * t) ∧
      (axisSettings (some t) none dmin dmax).tick_interval =
        t * rsign ((axisSettings (some t) none dmin dmax).limits.2 -
          (axisSettings (some t) none dmin dmax).limits.1)) ∧
    digestExtents
        [F.fin 0, F.fin 1, F.fin 2, F.fin 3, F.fin 4]
        [F.fin 0, F.fin 1, F.fin 4, F.fin 9, F.fin 16] =
      ((F.fin 0, F.fin 4), (F.fin 0, F.fin 16)) ∧
    axisSettings none none 0 4 =
      { limits := (0, 4), tick_interval := 1, num_ticks := 5 } ∧
    axisSettings none none 0 16 =
      { limits := (0, 20), tick_interval := 5, num_ticks := 5 } ∧
    (∃ k1 k2 : ℤ,
      (axisSettings none none 0 16).limits.1 =
          k1 * (axisSettings none none 0 16).tick_interval ∧
        (axisSettings none none 0 16).limits.2 =
          k2 * (axisSettings none none 0 16).tick_interval) ∧
    (axisSettings none none 0 16).limits.1 ≤ 0 ∧
    (16 : ℚ) ≤ (axisSettings none none 0 16).limits.2 := by
  refine ⟨fun dmin dmax => ⟨rfl, rfl⟩, fun t dmin dmax => ⟨rfl, rfl⟩, by decide,
    axisSettings_free_0_4, axisSettings_free_0_16, ⟨0, 4, ?_, ?_⟩, ?_, ?_⟩ <;>
    rw [axisSettings_free_0_16] <;> norm_num

end Pdfplot

namespace Pdfplot

/-- C5: the data-to-canvas x map anchors its endpoints exactly:
`to_canvas_x xlim.0 = y_margin` and `to_canvas_x xlim.1 = y_margin +
plot_width`, with `plot_width = width - y_margin - width_of (last x tick
label)`, whenever the two x limits differ. -/
theorem to_canvas_x_anchors (width y_margin last_label_width : ℚ) (xlim : ℚ × ℚ)
    (h : xlim.1 ≠ xlim.2) :
    to_canvas_x (plotWidth width y_margin last_label_width) y_margin xlim xlim.1 =
        y_margin ∧
      to_canvas_x (plotWidth width y_margin last_label_width) y_margin xlim xlim.2 =
        y_margin + plotWidth width y_margin last_label_width := by
  have hne : xlim.2 - xlim.1 ≠ 0 := sub_ne_zero.mpr (Ne.symm h)
  constructor
  · simp [to_canvas_x]
  · simp only [to_canvas_x]
    rw [mul_comm, div_mul_cancel₀ _ hne, add_comm]

/-- Witness for C5 at page width 810, y margin 100, last label width 10,
x limits `(0, 4)`. -/
theorem to_canvas_x_anchors_witness :
    ((0 : ℚ), (4 : ℚ)).1 ≠ ((0 : ℚ), (4 : ℚ)).2 ∧
      (to_canvas_x (plotWidth 810 100 10) 100 (0, 4) ((0 : ℚ), (4 : ℚ)).1 = 100 ∧
        to_canvas_x (plotWidth 810 100 10) 100 (0, 4) ((0 : ℚ), (4 : ℚ)).2 =
          100 + plotWidth 810 100 10) :=
  ⟨by norm_num, to_canvas_x_anchors 810 100 10 (0, 4) (by norm_num)⟩

/-- C8: `Plot::plot` leaves every configuration field unchanged, while
`Plot::image` mutates exactly the page width and height, setting
`height = plot_size + x_margin + font_size` and `width = plot_size +
y_margin + font_size` with `plot_size = min plot_width plot_height`, and
leaves every other field unchanged. -/
theorem config_frame_effects (c : PlotConfig) (y_margin last_label_width : ℚ) :
    plotConfigEffect c = c ∧
      (imageConfigEffect c y_margin last_label_width).height =
        min (c.width - y_margin - last_label_width)
            (c.height - xaxisMargin c - c.font_size) +
          xaxisMargin c + c.font_size ∧
      (imageConfigEffect c y_margin last_label_width).width =
        min (c.width - y_margin - last_label_width)
            (c.height - xaxisMargin c - c.font_size) +
          y_margin + c.font_size ∧
      (imageConfigEffect c y_margin last_label_width).font_size = c.font_size ∧
      (imageConfigEffect c y_margin last_label_width).tick_length = c.tick_length ∧
      (imageConfigEffect c y_margin last_label_width).x_tick_interval =
        c.x_tick_interval ∧
      (imageConfigEffect c y_margin last_label_width).y_tick_interval =
        c.y_tick_interval ∧
      (imageConfigEffect c y_margin last_label_width).xlim = c.xlim ∧
      (imageConfigEffect c y_margin last_label_width).ylim = c.ylim ∧
      (imageConfigEffect c y_margin last_label_width).xlabel = c.xlabel ∧
      (imageConfigEffect c y_margin last_label_width).ylabel = c.ylabel ∧
      (imageConfigEffect c y_margin last_label_width).marker = c.marker ∧
      (imageConfigEffect c y_margin last_label_width).linestyle = c.linestyle :=
  ⟨rfl, rfl, rfl, rfl, rfl, rfl, rfl, rfl, rfl, rfl, rfl, rfl, rfl⟩

/-- C9: evaluation of `to_u64` at the boundary.  The claim demands
failure for every input greater than `u64::MAX = 2 ^ 64 - 1`, but
`u64::max_value() as f64` rounds up to `2 ^ 64`, so the representable
input `2 ^ 64` passes both assertions and is silently saturated to
`u64::MAX` by the `as u64` cast — the code contradicts its own assertion
message.  Negative and NaN inputs do fail as the claim states. -/
theorem to_u64_saturates_at_2_pow_64 :
    to_u64 (F.fin (2 ^ 64)) = some (2 ^ 64 - 1) ∧
      (((2 ^ 64 - 1 : ℕ) : ℚ) < (2 ^ 64 : ℚ)) ∧
      to_u64 F.nan = none ∧
      to_u64 F.inf = none ∧
      (∀ q : ℚ, q < 0 → to_u64 (F.fin q) = none) := by
  refine ⟨?_, by norm_num, rfl, rfl, ?_⟩
  · have h1 : ((0 : ℚ) ≤ 2 ^ 64) := by norm_num
    have h2 : ((2 : ℚ) ^ 64 ≤ u64MaxAsF64) := le_refl _
    have hfl : (⌊((2 : ℚ) ^ 64)⌋ : ℤ) = 2 ^ 64 := by
      rw [show ((2 : ℚ) ^ 64) = ((2 ^ 64 : ℤ) : ℚ) by push_cast; ring, Int.floor_intCast]
    simp only [to_u64, if_pos h1, if_pos h2, hfl]
    norm_num
  · intro q hq
    simp only [to_u64, if_neg (not_le.mpr hq)]

/-- Witness for C9 (the universally quantified negative-input clause), at
`q = -1`. -/
theorem to_u64_saturates_witness :
    (-1 : ℚ) < 0 ∧ to_u64 (F.fin (-1)) = none :=
  ⟨by norm_num, to_u64_saturates_at_2_pow_64.2.2.2.2 (-1) (by norm_num)⟩

end Pdfplot

namespace Pdfplot

/-! ### The running minimum and maximum of the image intensity scan -/

theorem foldl_min_le_init : ∀ (l : List ℚ) (a : ℚ),
    l.foldl (fun m q => if q < m then q else m) a ≤ a
  | [], _ => le_refl _
  | h :: t, a => by
    refine le_trans (foldl_min_le_init t (if h < a then h else a)) ?_
    split
    · exact le_of_lt (by assumption)
    · exact le_refl _

theorem foldl_min_le_mem : ∀ (l : List ℚ) (a q : ℚ), q ∈ l →
    l.foldl (fun m q => if q < m then q else m) a ≤ q
  | [], _, _, hq => by simp at hq
  | h :: t, a, q, hq => by
    rcases List.mem_cons.mp hq with rfl | hq
    · refine le_trans (foldl_min_le_init t (if q < a then q else a)) ?_
      split
      · exact le_refl _
      · exact le_of_not_lt (by assumption)
    · exact foldl_min_le_mem t _ q hq

theorem le_foldl_min : ∀ (l : List ℚ) (a c : ℚ), (∀ q ∈ l, c ≤ q) → c ≤ a →
    c ≤ l.foldl (fun m q => if q < m then q else m) a
  | [], _, _, _, ha => ha
  | h :: t, a, c, hall, ha => by
    refine le_foldl_min t _ c (fun q hq => hall q (List.mem_cons_of_mem h hq)) ?_
    show c ≤ if h < a then h else a
    split
    · exact hall h (List.mem_cons_self h t)
    · exact ha

theorem init_le_foldl_max : ∀ (l : List ℚ) (a : ℚ),
    a ≤ l.foldl (fun m q => if q > m then q else m) a
  | [], _ => le_refl _
  | h :: t, a => by
    refine le_trans ?_ (init_le_foldl_max t (if h > a then h else a))
    split
    · exact le_of_lt (by assumption)
    · exact le_refl _

theorem mem_le_foldl_max : ∀ (l : List ℚ) (a q : ℚ), q ∈ l →
    q ≤ l.foldl (fun m q => if q > m then q else m) a
  | [], _, _, hq => by simp at hq
  | h :: t, a, q, hq => by
    rcases List.mem_cons.mp hq with rfl | hq
    · refine le_trans ?_ (init_le_foldl_max t (if q > a then q else a))
      split
      · exact le_refl _
      · exact le_of_not_lt (by assumption)
    · exact mem_le_foldl_max t _ q hq

theorem foldl_max_le : ∀ (l : List ℚ) (a c : ℚ), (∀ q ∈ l, q ≤ c) → a ≤ c →
    l.foldl (fun m q => if q > m then q else m) a ≤ c
  | [], _, _, _, ha => ha
  | h :: t, a, c, hall, ha => by
    refine foldl_max_le t _ c (fun q hq => hall q (List.mem_cons_of_mem h hq)) ?_
    show (if h > a then h else a) ≤ c
    split
    · exact hall h (List.mem_cons_self h t)
    · exact ha

theorem foldl_pair_minmax : ∀ (l : List ℚ) (p : ℚ × ℚ),
    l.foldl (fun mm q => (if q < mm.1 then q else mm.1, if q > mm.2 then q else mm.2)) p =
      (l.foldl (fun m q => if q < m then q else m) p.1,
        l.foldl (fun m q => if q > m then q else m) p.2)
  | [], _ => rfl
  | h :: t, p => foldl_pair_minmax t _

theorem imageMinMax_eq (data : List F) :
    imageMinMax data =
      ((finiteVals data).foldl (fun m q => if q < m then q else m) f64Max,
        (finiteVals data).foldl (fun m q => if q > m then q else m) (-f64Max)) :=
  foldl_pair_minmax _ _

theorem imageMinMax_fst_le (data : List F) (q : ℚ) (h : q ∈ finiteVals data) :
    (imageMinMax data).1 ≤ q := by
  rw [imageMinMax_eq]
  exact foldl_min_le_mem _ _ q h

theorem le_imageMinMax_snd (data : List F) (q : ℚ) (h : q ∈ finiteVals data) :
    q ≤ (imageMinMax data).2 := by
  rw [imageMinMax_eq]
  exact mem_le_foldl_max _ _ q h

theorem mem_finiteVals_of_fin (data : List F) (q : ℚ) (h : F.fin q ∈ data) :
    q ∈ finiteVals data := by
  rw [finiteVals, List.mem_filterMap]
  exact ⟨F.fin q, h, rfl⟩

end Pdfplot

namespace Pdfplot

theorem mem_finiteVals_two (data : List F) (m M : ℚ)
    (hall : ∀ v ∈ data, v = F.fin m ∨ v = F.fin M) :
    ∀ q ∈ finiteVals data, q = m ∨ q = M := by
  intro q hq
  rw [finiteVals, List.mem_filterMap] at hq
  obtain ⟨v, hv, hveq⟩ := hq
  rcases hall v hv with rfl | rfl
  · left
    simpa using hveq.symm
  · right
    simpa using hveq.symm

theorem imageMinMax_two_values (data : List F) (m M : ℚ) (hmM : m ≤ M)
    (hmMax : m ≤ f64Max) (hMMin : -f64Max ≤ M)
    (hall : ∀ v ∈ data, v = F.fin m ∨ v = F.fin M)
    (hm : F.fin m ∈ data) (hM : F.fin M ∈ data) :
    imageMinMax data = (m, M) := by
  have hmem := mem_finiteVals_two data m M hall
  have h1 : (imageMinMax data).1 = m := by
    refine le_antisymm (imageMinMax_fst_le _ _ (mem_finiteVals_of_fin _ _ hm)) ?_
    rw [imageMinMax_eq]
    refine le_foldl_min _ _ _ (fun q hq => ?_) hmMax
    rcases hmem q hq with rfl | rfl
    · exact le_refl _
    · exact hmM
  have h2 : (imageMinMax data).2 = M := by
    refine le_antisymm ?_ (le_imageMinMax_snd _ _ (mem_finiteVals_of_fin _ _ hM))
    rw [imageMinMax_eq]
    refine foldl_max_le _ _ _ (fun q hq => ?_) hMMin
    rcases hmem q hq with rfl | rfl
    · exact hmM
    · exact le_refl _
  rw [← h1, ← h2]

theorem colorIndex_top (m M : ℚ) (hmM : m < M) : colorIndex m M M = 255 := by
  have hne : M - m ≠ 0 := sub_ne_zero.mpr (ne_of_gt hmM)
  rw [colorIndex, max_eq_left (le_of_lt hmM), div_self hne]
  norm_num
  rfl

theorem colorIndex_bottom (m M : ℚ) : colorIndex m M m = 0 := by
  rw [colorIndex, max_self, sub_self, zero_div, zero_mul]
  norm_num

/-- C7: in the `f64` intensity path of `Plot::image`, a buffer whose
entries all take one of two finite values `m < M` (both present, both in
`f64` range) renders the `M` cells as the ramp's top color `ramp 255` and
the `m` cells as the bottom color `ramp 0`; a buffer of NaNs renders
entirely as the flat white pixel `(255, 255, 255)`. -/
theorem image_extremes_and_nan (ramp : ℕ → ℕ × ℕ × ℕ) (data : List F) (m M : ℚ)
    (hmM : m < M) (hmMax : m ≤ f64Max) (hMMin : -f64Max ≤ M)
    (hall : ∀ v ∈ data, v = F.fin m ∨ v = F.fin M)
    (hm : F.fin m ∈ data) (hM : F.fin M ∈ data) :
    imagePixels ramp data =
        data.map (fun v => if v = F.fin M then ramp 255 else ramp 0) ∧
      ∀ other : List F, (∀ v ∈ other, v = F.nan) →
        imagePixels ramp other = other.map (fun v => (255, 255, 255)) := by
  constructor
  · have hmm := imageMinMax_two_values data m M (le_of_lt hmM) hmMax hMMin hall hm hM
    simp only [imagePixels, hmm]
    refine List.map_congr_left (fun v hv => ?_)
    rcases hall v hv with rfl | rfl
    · rw [if_neg (by simp [ne_of_lt hmM]), renderPixel, colorIndex_bottom]
    · rw [if_pos rfl, renderPixel, colorIndex_top m M hmM]
  · intro other hother
    simp only [imagePixels]
    refine List.map_congr_left (fun v hv => ?_)
    rw [hother v hv]
    rfl

/-- Witness for C7 at the buffer `[0, 1, 0]` (min 0, max 1) and the ramp
`i ↦ (i, i, i)`, plus the all-NaN buffer `[NaN]`. -/
theorem image_extremes_and_nan_witness :
    ((0 : ℚ) < 1 ∧ (0 : ℚ) ≤ f64Max ∧ -f64Max ≤ (1 : ℚ)) ∧
      imagePixels (fun i => (i, i, i)) [F.fin 0, F.fin 1, F.fin 0] =
          [F.fin 0, F.fin 1, F.fin 0].map
            (fun v => if v = F.fin 1 then (255, 255, 255) else (0, 0, 0)) ∧
        imagePixels (fun i => (i, i, i)) [F.nan] = [F.nan].map (fun v => (255, 255, 255)) := by
  have hMax : (0 : ℚ) ≤ f64Max := by
    rw [f64Max]
    positivity
  have hMin : -f64Max ≤ (1 : ℚ) := by
    have : (0 : ℚ) ≤ f64Max := hMax
    linarith
  have h := image_extremes_and_nan (fun i => (i, i, i)) [F.fin 0, F.fin 1, F.fin 0] 0 1
    (by norm_num) hMax hMin (by intro v hv; fin_cases hv <;> simp)
    (by simp) (by simp)
  exact ⟨⟨by norm_num, hMax, hMin⟩, h.1, h.2 [F.nan] (by intro v hv; fin_cases hv; rfl)⟩

/-- C10: for every finite entry of an image buffer, the computed
color-ramp index is within the bounds of the 256-entry ramp; and in the
degenerate case where the observed maximum equals the observed minimum
the index is 0 (the zero-width division yields index 0 rather than a
failure). -/
theorem colorIndex_in_bounds (data : List F) (q : ℚ) (h : F.fin q ∈ data) :
    colorIndex (imageMinMax data).1 (imageMinMax data).2 q < 256 ∧
      ((imageMinMax data).1 = (imageMinMax data).2 →
        colorIndex (imageMinMax data).1 (imageMinMax data).2 q = 0) := by
  have hmem := mem_finiteVals_of_fin data q h
  have hmn : (imageMinMax data).1 ≤ q := imageMinMax_fst_le data q hmem
  have hmx : q ≤ (imageMinMax data).2 := le_imageMinMax_snd data q hmem
  constructor
  · rcases eq_or_lt_of_le (le_trans hmn hmx) with heq | hlt
    · rw [colorIndex, max_eq_left hmn, ← heq, sub_self, div_zero, zero_mul]
      norm_num
    · have hpos : (0 : ℚ) < (imageMinMax data).2 - (imageMinMax data).1 := by linarith
      have hratio : (q - (imageMinMax data).1) / ((imageMinMax data).2 - (imageMinMax data).1) ≤ 1 := by
        rw [div_le_one hpos]
        linarith
      have hval : (q - (imageMinMax data).1) / ((imageMinMax data).2 - (imageMinMax data).1) * 255 ≤ 255 := by
        nlinarith
      have hfl : ⌊(q - (imageMinMax data).1) / ((imageMinMax data).2 - (imageMinMax data).1) * 255⌋ ≤ 255 := by
        have := Int.floor_le_floor (α := ℚ) hval
        simpa using this
      rw [colorIndex, max_eq_left hmn]
      omega
  · intro heq
    rw [colorIndex, max_eq_left hmn, heq, sub_self, div_zero, zero_mul]
    norm_num

/-- Witness for C10 at the single-entry buffer `[2]`: index 0 in bounds,
and the degenerate equal-min-max case yields index 0. -/
theorem colorIndex_in_bounds_witness :
    F.fin 2 ∈ [F.fin 2] ∧
      colorIndex (imageMinMax [F.fin 2]).1 (imageMinMax [F.fin 2]).2 2 < 256 ∧
      ((imageMinMax [F.fin 2]).1 = (imageMinMax [F.fin 2]).2 →
        colorIndex (imageMinMax [F.fin 2]).1 (imageMinMax [F.fin 2]).2 2 = 0) :=
  ⟨by simp, (colorIndex_in_bounds [F.fin 2] 2 (by simp)).1,
    (colorIndex_in_bounds [F.fin 2] 2 (by simp)).2⟩

end Pdfplot

namespace Pdfplot

/-- C6: a render call fails its precondition checks exactly when some
axis's scanned data extent is non-finite (in particular empty) while that
axis's limit is not pinned, or, for `Plot::image`, when the buffer length
differs from `width * height` (image limits must both be pinned, since
its extent scan runs on empty slices and is never finite).  Concretely,
with `xlim` pinned to `(0, 600)`, empty data and no pinned `ylim`, the
check fails. -/
theorem render_config_error_iff (xs ys : List F) (xlim ylim : Option (ℚ × ℚ))
    (data_len image_width image_height : ℕ) :
    (digestOk xs ys xlim ylim = false ↔
      (extentFinite (digestExtents xs ys).1 = false ∧ xlim = none) ∨
        (extentFinite (digestExtents xs ys).2 = false ∧ ylim = none)) ∧
      (imageOk data_len image_width image_height xlim ylim = false ↔
        image_width * image_height ≠ data_len ∨ xlim = none ∨ ylim = none) ∧
      digestOk [] [] (some ((0 : ℚ), (600 : ℚ))) none = false := by
  refine ⟨?_, ?_, by decide⟩
  · rw [digestOk]
    cases hx : extentFinite (digestExtents xs ys).1 <;>
      cases hy : extentFinite (digestExtents xs ys).2 <;>
      cases xlim <;> cases ylim <;> simp
  · rw [imageOk, digestOk]
    cases xlim <;> cases ylim <;>
      by_cases hlen : image_width * image_height = data_len <;>
      simp [hlen, extentFinite, digestExtents, extent, F.isFinite]

end Pdfplot

namespace Pdfplot

end Pdfplot

namespace Pdfplot

theorem tickLabelFormat_zero (t : ℚ) (limits : ℚ × ℚ) :
    tickLabelFormat t limits 0 = LabelFormat.zero := by
  simp [tickLabelFormat]

theorem tickLabelFormat_fixed_small (t : ℚ) (limits : ℚ × ℚ) (v : ℚ)
    (hv : v ≠ 0) (h : |t| < 1) :
    tickLabelFormat t limits v = LabelFormat.fixedPoint (-Int.log 10 |t|).toNat := by
  simp only [tickLabelFormat]
  rw [if_neg hv, if_pos h]

theorem tickLabelFormat_fixed_two (t : ℚ) (limits : ℚ × ℚ) (v : ℚ)
    (hv : v ≠ 0) (h1 : ¬|t| < 1) (h2 : max |limits.1| |limits.2| < 10 ^ 4) :
    tickLabelFormat t limits v = LabelFormat.fixedPoint 2 := by
  simp only [tickLabelFormat]
  rw [if_neg hv, if_neg h1, if_pos h2]

theorem tickLabelFormat_sci (t : ℚ) (limits : ℚ × ℚ) (v : ℚ)
    (hv : v ≠ 0) (h1 : ¬|t| < 1) (h2 : ¬max |limits.1| |limits.2| < 10 ^ 4) :
    tickLabelFormat t limits v =
      LabelFormat.scientific
        (max ((if |t| ≤ max |limits.1| |limits.2| then
            Int.clog 10 (max |limits.1| |limits.2| / |t|)
          else Int.clog 10 (|t| / max |limits.1| |limits.2|)) - 1) 1).toNat := by
  simp only [tickLabelFormat]
  rw [if_neg hv, if_neg h1, if_neg h2]

end Pdfplot

namespace Pdfplot

/-- C4: the tick label formatting of `Axis::tick_labels` follows the
claimed rule set, with `tick_precision = log10 |tick_interval|` and
`tick_max = log10 (max |limits.0| |limits.1|)` read as real logarithms:
the value 0 formats as the literal zero in every regime; otherwise
`tick_precision < 0` gives fixed-point with `ceil |tick_precision|`
fractional digits; otherwise `tick_max < 4` gives fixed-point with 2
digits; otherwise scientific notation with
`max (ceil |tick_max - tick_precision| - 1) 1` digits.  In particular a
tick interval of `0.001` with limits `(0, 0.01)` gives 3 decimal places,
and a tick interval of `50000` with limits spanning `10 ^ 6` gives
scientific notation with one digit. -/
theorem tick_label_format_rules (t : ℚ) (limits : ℚ × ℚ) (v : ℚ) (ht : t ≠ 0) :
    tickLabelFormat t limits 0 = LabelFormat.zero ∧
      (v ≠ 0 → Real.logb 10 |(t : ℝ)| < 0 →
        tickLabelFormat t limits v =
          LabelFormat.fixedPoint (⌈abs (Real.logb 10 |(t : ℝ)|)⌉).toNat) ∧
      (v ≠ 0 → 0 ≤ Real.logb 10 |(t : ℝ)| →
        Real.logb 10 (max |(limits.1 : ℝ)| |(limits.2 : ℝ)|) < 4 →
        tickLabelFormat t limits v = LabelFormat.fixedPoint 2) ∧
      (v ≠ 0 → 0 ≤ Real.logb 10 |(t : ℝ)| →
        4 ≤ Real.logb 10 (max |(limits.1 : ℝ)| |(limits.2 : ℝ)|) →
        tickLabelFormat t limits v =
          LabelFormat.scientific
            (max (⌈abs (Real.logb 10 (max |(limits.1 : ℝ)| |(limits.2 : ℝ)|) -
              Real.logb 10 |(t : ℝ)|)⌉ - 1) 1).toNat) ∧
      tickLabelFormat (1 / 1000) (0, 1 / 100) (1 / 1000) = LabelFormat.fixedPoint 3 ∧
      tickLabelFormat 50000 (0, 10 ^ 6) 50000 = LabelFormat.scientific 1 := by
  have ht0 : (0 : ℚ) < |t| := abs_pos.mpr ht
  have htR : ((|t| : ℚ) : ℝ) = |(t : ℝ)| := by push_cast; rfl
  have htR0 : (0 : ℝ) < |(t : ℝ)| := by
    rw [← htR]
    exact_mod_cast ht0
  have hMR : ((max |limits.1| |limits.2| : ℚ) : ℝ) =
      max |(limits.1 : ℝ)| |(limits.2 : ℝ)| := by
    push_cast
    rfl
  have hM0 : (0 : ℚ) ≤ max |limits.1| |limits.2| :=
    le_max_iff.mpr (Or.inl (abs_nonneg _))
  refine ⟨tickLabelFormat_zero t limits, ?_, ?_, ?_, ?_, ?_⟩
  · intro hv hneg
    have h1 : |t| < 1 := by
      have h := (Real.logb_neg_iff (by norm_num) htR0).mp hneg
      rw [← htR] at h
      exact_mod_cast h
    have hceil : ⌈abs (Real.logb 10 |(t : ℝ)|)⌉ = -Int.log 10 |t| := by
      rw [abs_of_neg hneg, Int.ceil_neg, floor_logb10 _ (le_of_lt htR0), ← htR,
        Int_log10_ratCast _ ht0]
    rw [tickLabelFormat_fixed_small t limits v hv h1, hceil]
  · intro hv hnonneg hlt4
    have h1 : ¬|t| < 1 := by
      have h := (Real.logb_nonneg_iff (by norm_num) htR0).mp hnonneg
      rw [← htR] at h
      have : (1 : ℚ) ≤ |t| := by exact_mod_cast h
      exact not_lt.mpr this
    have h2 : max |limits.1| |limits.2| < 10 ^ 4 := by
      rcases eq_or_lt_of_le hM0 with heq | hpos
      · rw [← heq]
        norm_num
      · have hMR0 : (0 : ℝ) < ((max |limits.1| |limits.2| : ℚ) : ℝ) := by
          exact_mod_cast hpos
        rw [← hMR] at hlt4
        have h := (Real.logb_lt_iff_lt_rpow (by norm_num) hMR0).mp hlt4
        have h10 : (10 : ℝ) ^ (4 : ℝ) = 10000 := by
          rw [show (4 : ℝ) = ((4 : ℕ) : ℝ) by norm_num, Real.rpow_natCast]
          norm_num
        rw [h10] at h
        have h' : max |limits.1| |limits.2| < 10000 := by exact_mod_cast h
        linarith [h']
    exact tickLabelFormat_fixed_two t limits v hv h1 h2
  · intro hv hnonneg hge4
    have h1 : ¬|t| < 1 := by
      have h := (Real.logb_nonneg_iff (by norm_num) htR0).mp hnonneg
      rw [← htR] at h
      have : (1 : ℚ) ≤ |t| := by exact_mod_cast h
      exact not_lt.mpr this
    have hMpos : (0 : ℚ) < max |limits.1| |limits.2| := by
      rcases eq_or_lt_of_le hM0 with heq | hpos
      · exfalso
        rw [← hMR, ← heq] at hge4
        rw [show (((0 : ℚ) : ℝ)) = (0 : ℝ) by norm_num, Real.logb_zero] at hge4
        linarith
      · exact hpos
    have hMR0 : (0 : ℝ) < ((max |limits.1| |limits.2| : ℚ) : ℝ) := by exact_mod_cast hMpos
    have h2 : ¬max |limits.1| |limits.2| < 10 ^ 4 := by
      rw [← hMR] at hge4
      have h := (Real.le_logb_iff_rpow_le (by norm_num) hMR0).mp hge4
      have h10 : (10 : ℝ) ^ (4 : ℝ) = 10000 := by
        rw [show (4 : ℝ) = ((4 : ℕ) : ℝ) by norm_num, Real.rpow_natCast]
        norm_num
      rw [h10] at h
      have h' : (10000 : ℚ) ≤ max |limits.1| |limits.2| := by exact_mod_cast h
      push_neg
      linarith [h']
    have hdiff : Real.logb 10 (max |(limits.1 : ℝ)| |(limits.2 : ℝ)|) -
        Real.logb 10 |(t : ℝ)| =
        Real.logb 10 (((max |limits.1| |limits.2| : ℚ) : ℝ) / |(t : ℝ)|) := by
      rw [← hMR, Real.logb_div (ne_of_gt hMR0) (ne_of_gt htR0)]
    rw [tickLabelFormat_sci t limits v hv h1 h2]
    by_cases hle : |t| ≤ max |limits.1| |limits.2|
    · have hcast : ((max |limits.1| |limits.2| / |t| : ℚ) : ℝ) =
          ((max |limits.1| |limits.2| : ℚ) : ℝ) / |(t : ℝ)| := by
        push_cast
        ring
      have hratio1 : (1 : ℝ) ≤ ((max |limits.1| |limits.2| : ℚ) : ℝ) / |(t : ℝ)| := by
        rw [one_le_div htR0, ← htR]
        exact_mod_cast hle
      have habs : abs (Real.logb 10 (((max |limits.1| |limits.2| : ℚ) : ℝ) / |(t : ℝ)|)) =
          Real.logb 10 (((max |limits.1| |limits.2| : ℚ) : ℝ) / |(t : ℝ)|) :=
        abs_of_nonneg (Real.logb_nonneg (by norm_num) hratio1)
      rw [if_pos hle, hdiff, habs, ← hcast,
        ceil_logb10 _ (by positivity), Int_clog10_ratCast _ (div_pos hMpos ht0)]
    · have hlt : max |limits.1| |limits.2| < |t| := not_le.mp hle
      have hcast : ((|t| / max |limits.1| |limits.2| : ℚ) : ℝ) =
          |(t : ℝ)| / ((max |limits.1| |limits.2| : ℚ) : ℝ) := by
        push_cast
        ring
      have hratio : ((max |limits.1| |limits.2| : ℚ) : ℝ) / |(t : ℝ)| < 1 := by
        rw [div_lt_one htR0, ← htR]
        exact_mod_cast hlt
      have hlogneg : Real.logb 10 (((max |limits.1| |limits.2| : ℚ) : ℝ) / |(t : ℝ)|) < 0 :=
        Real.logb_neg (by norm_num) (div_pos hMR0 htR0) hratio
      have habs : abs (Real.logb 10 (((max |limits.1| |limits.2| : ℚ) : ℝ) / |(t : ℝ)|)) =
          Real.logb 10 (|(t : ℝ)| / ((max |limits.1| |limits.2| : ℚ) : ℝ)) := by
        rw [abs_of_neg hlogneg, ← Real.logb_inv, inv_div]
      rw [if_neg hle, hdiff, habs, ← hcast,
        ceil_logb10 _ (by positivity), Int_clog10_ratCast _ (div_pos ht0 hMpos)]
  · have hlog : Int.log 10 ((1 : ℚ) / 1000) = -3 := by
      refine Int_log10_eq (1 / 1000) (-3) (by norm_num) ?_ ?_
      · norm_num
      · norm_num
    rw [tickLabelFormat_fixed_small (1 / 1000) (0, 1 / 100) (1 / 1000) (by norm_num)
      (by rw [abs_of_pos (show (0 : ℚ) < 1 / 1000 by norm_num)]; norm_num),
      show |(1 / 1000 : ℚ)| = 1 / 1000 from abs_of_pos (by norm_num), hlog]
    rfl
  · have h20 : Int.clog 10 (20 : ℚ) = 2 :=
      Int_clog10_eq 20 2 (by norm_num) (by norm_num) (by norm_num)
    have hnat : Nat.clog 10 20 = 2 := by
      have h := Int.clog_natCast (R := ℚ) 10 20
      rw [show (((20 : ℕ) : ℚ)) = (20 : ℚ) by norm_num, h20] at h
      exact_mod_cast h.symm
    rw [tickLabelFormat_sci 50000 (0, 10 ^ 6) 50000 (by norm_num) (by norm_num)
      (by norm_num)]
    norm_num [hnat]

/-- Witness for C4 at `tick_interval = 1/2`, limits `(0, 3)`, `v = 1/2`:
`tick_precision = log10 (1/2) < 0`, giving fixed-point with
`ceil |log10 (1/2)| = 1` digit. -/
theorem tick_label_format_rules_witness :
    ((1 / 2 : ℚ) ≠ 0 ∧ (1 / 2 : ℚ) ≠ 0 ∧ Real.logb 10 |((1 / 2 : ℚ) : ℝ)| < 0) ∧
      tickLabelFormat (1 / 2) (0, 3) (1 / 2) =
        LabelFormat.fixedPoint (⌈abs (Real.logb 10 |((1 / 2 : ℚ) : ℝ)|)⌉).toNat := by
  have hht : ((1 / 2 : ℚ) : ℝ) = (1 / 2 : ℝ) := by norm_num
  have habs : |((1 / 2 : ℚ) : ℝ)| = (1 / 2 : ℝ) := by
    rw [hht]
    norm_num
  have hneg : Real.logb 10 |((1 / 2 : ℚ) : ℝ)| < 0 := by
    rw [habs]
    exact Real.logb_neg (by norm_num) (by norm_num) (by norm_num)
  exact ⟨⟨by norm_num, by norm_num, hneg⟩,
    ((tick_label_format_rules (1 / 2) (0, 3) (1 / 2) (by norm_num)).2.1 (by norm_num) hneg)⟩

end Pdfplot
